import Mathlib

set_option maxRecDepth 4000

namespace WT

/-- JavaScript runtime values that can appear in the parsed argv object of
`minimistPrettyParse` (src/bin/cmd.js): booleans, strings, numbers, arrays of
strings (variadic positional bindings), and `undefined`. -/
inductive JSValue where
  | undef : JSValue
  | bool : Bool → JSValue
  | str : String → JSValue
  | num : Int → JSValue
  | strList : List String → JSValue
  deriving DecidableEq, Repr

/-- Lookup in a JS-object modelled as an ordered association list
(first binding of a key wins; a JS object has at most one binding per key,
and `setKeyA` preserves that discipline). -/
def lookupA {α : Type} : List (String × α) → String → Option α
  | [], _ => none
  | (k', v') :: rest, k => if k' = k then some v' else lookupA rest k

/-- JS property assignment `obj[k] = v` on an ordered association list:
updates the first binding of `k` in place, or appends a new binding. -/
def setKeyA {α : Type} : List (String × α) → String → α → List (String × α)
  | [], k, v => [(k, v)]
  | (k', v') :: rest, k, v =>
    if k' = k then (k, v) :: rest else (k', v') :: setKeyA rest k v

/-- `leadsWith p l` is true when the character list `p` is an initial segment
of `l` (JS `String.prototype.startsWith`). -/
def leadsWith : List Char → List Char → Bool
  | [], _ => true
  | _ :: _, [] => false
  | p :: ps, c :: cs => p = c && leadsWith ps cs

/-- JS `String.prototype.includes`: `pat` occurs as a contiguous substring. -/
def hasSub (pat : List Char) : List Char → Bool
  | [] => pat.isEmpty
  | c :: cs => leadsWith pat (c :: cs) || hasSub pat cs

/-- JS `String.prototype.replace` with a string pattern: delete / replace only
the first (leftmost) occurrence of `pat`; here specialised to replacement by
the empty string, as the no-dash deletion at src/bin/cmd.js:2552 does. -/
def replFirst (pat : List Char) : List Char → List Char
  | [] => []
  | c :: cs => if leadsWith pat (c :: cs) then (c :: cs).drop pat.length else c :: replFirst pat cs

/-- The global regex replacement `key.replace(/[_-]([a-z])/g, (_, w) => w.toUpperCase())`
(src/bin/cmd.js:2555 and 2609): every `-` or `_` followed by a lowercase ASCII
letter is collapsed into the uppercased letter. -/
def camelChars : List Char → List Char
  | [] => []
  | [c] => [c]
  | c :: d :: rest =>
    if (c = '-' || c = '_') && d.isLower then d.toUpper :: camelChars rest
    else c :: camelChars (d :: rest)

/-- Split a character list at every `-` or `_` (helper for the key-shape regex). -/
def splitSeps : List Char → List (List Char)
  | [] => [[]]
  | c :: cs =>
    match splitSeps cs with
    | [] => [[]]
    | p :: ps => if c = '-' || c = '_' then [] :: p :: ps else (c :: p) :: ps

/-- The test `key.match(/^[a-zA-Z]+((-|_){1}[a-zA-Z]+)+$/g)` (src/bin/cmd.js:2554,
2608): at least two nonempty all-letter segments joined by single `-`/`_`
separators. -/
def hyphenKey (l : List Char) : Bool :=
  let parts := splitSeps l
  decide (parts.length ≥ 2) && parts.all (fun p => !p.isEmpty && p.all Char.isAlpha)

/-- Character class `[\w+-]` of the template-token regex (src/bin/cmd.js:2584). -/
def wordPM (c : Char) : Bool := c.isAlphanum || c = '_' || c = '+' || c = '-'

/-- Character class `[\w-]` of the argument-name regex (src/bin/cmd.js:2589). -/
def wordDash (c : Char) : Bool := c.isAlphanum || c = '_' || c = '-'

/-- First maximal nonempty `[\w-]+` run in a character list
(JS `str.match(/[\w-]+/g)[0]`); `none` when no such run exists, in which case
the JS code dereferences `null` and faults. -/
def firstRun (l : List Char) : Option String :=
  let r := (l.dropWhile (fun c => !wordDash c)).takeWhile wordDash
  if r.isEmpty then none else some (String.mk r)

/-- Strip one trailing `...` from a template-token body, reporting whether it
was present (the `(\.\.\.)?` group of the regex at src/bin/cmd.js:2584). -/
def stripDots (body : List Char) : List Char × Bool :=
  match body.reverse with
  | '.' :: '.' :: '.' :: r => (r.reverse, true)
  | _ => (body, false)

/-- Errors escaping `minimistPrettyParse`: `thrown msg` models
`throw new Error(msg)` (a structured error the caller prints), while
`typeError` models an unstructured JS `TypeError` fault such as reading a
property of `undefined`. -/
inductive PErr where
  | thrown : String → PErr
  | typeError : PErr
  deriving DecidableEq, Repr

/-- One option of the schema object literals at src/bin/cmd.js:1694-1729:
optional alias, optional declared `type` string, optional `default` value.
(The `describe`/`defaultDescription`/`argumentDescription` fields only feed
the help renderer and are not part of parsing.) -/
structure OptionSpec where
  alias? : Option String
  type? : Option String
  default? : Option JSValue
  deriving DecidableEq, Repr

/-- One command of the `commands` object literal at src/bin/cmd.js:1746-1755:
only the positional `template` matters to the parser (`cb`/`describe` do not). -/
structure CmdSpec where
  template? : Option String
  deriving DecidableEq, Repr

/-- JS truthiness of a possibly-absent string property. -/
def truthyOS : Option String → Bool
  | none => false
  | some s => s != ""

/-- JS truthiness of a `JSValue`. -/
def truthyJS : JSValue → Bool
  | JSValue.undef => false
  | JSValue.bool b => b
  | JSValue.str s => s != ""
  | JSValue.num n => n != 0
  | JSValue.strList _ => true

/-- JS truthiness of a possibly-absent value property. -/
def truthyOJ : Option JSValue → Bool
  | none => false
  | some v => truthyJS v

/-- JS `typeof` on a defined value. -/
def typeofStr : JSValue → String
  | JSValue.undef => "undefined"
  | JSValue.bool _ => "boolean"
  | JSValue.str _ => "string"
  | JSValue.num _ => "number"
  | JSValue.strList _ => "object"

/-- The options record handed to minimist (src/bin/cmd.js:2543):
`{ alias: {}, boolean: [], string: [], default: {} }`. The JS field names
`alias`/`boolean`/`string`/`default` are reserved words here, hence the
pluralised field names. -/
structure MinimistOpts where
  aliases : List (String × String)
  booleans : List String
  strings : List String
  defaults : List (String × JSValue)
  deriving DecidableEq, Repr

/-- Processing of a single `[optionKey, optionValue]` entry by `buildOptions`
(src/bin/cmd.js:2544-2571), threading the accumulated minimist options and the
`anyTypeOptions` list. -/
def buildStep (acc : MinimistOpts × List String) (e : String × OptionSpec) :
    MinimistOpts × List String :=
  let mo := acc.1
  let anyK := acc.2
  let optionKey := e.1
  let ov := e.2
  let mo := if truthyOS ov.alias? then
      { mo with aliases := setKeyA mo.aliases (ov.alias?.getD "") optionKey } else mo
  let mo := if truthyOJ ov.default? then
      { mo with defaults := setKeyA mo.defaults optionKey (ov.default?.getD JSValue.undef) } else mo
  let mo := if hasSub ['n', 'o', '-'] optionKey.data then
      { mo with defaults := setKeyA mo.defaults (String.mk (replFirst ['n', 'o', '-'] optionKey.data)) (JSValue.bool true) } else mo
  let mo := if hyphenKey optionKey.data then
      { mo with aliases := setKeyA mo.aliases (String.mk (camelChars optionKey.data)) optionKey } else mo
  if truthyOS ov.type? || truthyOJ ov.default? then
    let ty := if truthyOJ ov.default? then typeofStr (ov.default?.getD JSValue.undef) else ov.type?.getD ""
    if ty = "boolean" then ({ mo with booleans := mo.booleans ++ [optionKey] }, anyK)
    else if ty = "any" then ({ mo with strings := mo.strings ++ [optionKey] }, anyK ++ [optionKey])
    else ({ mo with strings := mo.strings ++ [optionKey] }, anyK)
  else ({ mo with booleans := mo.booleans ++ [optionKey] }, anyK)

/-- `buildOptions` (src/bin/cmd.js:2542-2573): folds the option
entries, in object order, into minimist options; also returns the
`anyTypeOptions` keys collected along the way (src/bin/cmd.js:2531, 2564). -/
def buildOptions (options : List (String × OptionSpec)) : MinimistOpts × List String :=
  options.foldl buildStep (⟨[], [], [], []⟩, [])

/-- The mutable `result` object of minimist: the named-option map plus the
residual positional list `result._`. -/
structure MiniResult where
  vals : List (String × JSValue)
  pos : List String
  deriving DecidableEq, Repr

/-- A token is treated as a flag when it starts with `-` and is not the bare
token `-`. -/
def isFlagTok (t : String) : Bool := leadsWith ['-'] t.data && t != "-"

/-- Strip the leading dashes of a flag token (`--key` or `-alias`). -/
def flagName (t : String) : String :=
  if leadsWith ['-', '-'] t.data then String.mk (t.data.drop 2) else String.mk (t.data.drop 1)

/-- Alias resolution: a flag spelled by an alias writes under its canonical
key (spec section 4.2: every alias is resolved to its canonical key). -/
def resolveKey (opts : MinimistOpts) (name : String) : String :=
  match lookupA opts.aliases name with
  | some canon => canon
  | none => name

/-- Declared-negation test: the token names a declared boolean `no-` flag,
whose presence overrides the un-prefixed key (spec section 4.1). -/
def negCheck (opts : MinimistOpts) (name : String) : Bool :=
  leadsWith ['n', 'o', '-'] name.data && opts.booleans.contains name

/-- Drop a leading `no-` from a key. -/
def dropNo (name : String) : String := String.mk (name.data.drop 3)

/-- The alias spellings that resolve to a given canonical key. -/
def aliasNamesFor (al : List (String × String)) (canon : String) : List String :=
  (al.filter (fun p => p.2 = canon)).map (fun p => p.1)

/-- Record a flag value under its canonical key and under every declared alias
spelling of that key, mirroring how minimist populates both spellings. -/
def setFlagVals (opts : MinimistOpts) (st : MiniResult) (canon : String) (v : JSValue) :
    MiniResult :=
  let vals := setKeyA st.vals canon v
  let vals := (aliasNamesFor opts.aliases canon).foldl (fun m n => setKeyA m n v) vals
  { st with vals := vals }

/-- Append a residual positional token to `result._`. -/
def addPos (st : MiniResult) (t : String) : MiniResult := { st with pos := st.pos ++ [t] }

/-- Modelled from the spec: the flag tokenizer that the source delegates to the
external `minimist` dependency (`minimist(argv, ...)`, src/bin/cmd.js:2534),
whose own source is not part of this repository. Per spec sections 4.1-4.2:
a bare boolean flag sets `true` and consumes nothing; a `string`/`either` flag
consumes the next token as its value unless none remains, which is reported as
an error; a flag followed directly by another flag token carries the empty
value; the presence of a declared boolean `no-X` flag overrides key `X` to `false`;
aliases are tokenized under either spelling; defaulted keys are present from
the start; every other token joins the residual positional list in order.
`tokAct` performs the action of one token: it either updates the result state
directly, or returns the canonical key of a value-taking flag whose value is
supplied by the next token. -/
def tokAct (opts : MinimistOpts) (st : MiniResult) (t : String) : MiniResult × Option String :=
  if isFlagTok t then
    let name := flagName t
    if negCheck opts name then (setFlagVals opts st (dropNo name) (JSValue.bool false), none)
    else
      let canon := resolveKey opts name
      if opts.booleans.contains canon then (setFlagVals opts st canon (JSValue.bool true), none)
      else if opts.strings.contains canon then (st, some canon)
      else (setFlagVals opts st canon (JSValue.bool true), none)
  else (addPos st t, none)

/-- Main loop of the tokenizer, one token per step. The `Option String`
argument is a value-taking flag still waiting for its value: a following
non-flag token becomes that value, a following flag token leaves it the empty
value, and end of input is the missing-value error of spec section 4.1. -/
def tokenize (opts : MinimistOpts) : MiniResult → Option String → List String → Except PErr MiniResult
  | _, some canon, [] => Except.error (PErr.thrown ("Missing value for flag " ++ canon))
  | st, none, [] => Except.ok st
  | st, some canon, t :: rest =>
    if isFlagTok t then
      let next := tokAct opts (setFlagVals opts st canon (JSValue.str "")) t
      tokenize opts next.1 next.2 rest
    else
      tokenize opts (setFlagVals opts st canon (JSValue.str t)) none rest
  | st, none, t :: rest =>
    let next := tokAct opts st t
    tokenize opts next.1 next.2 rest

/-- The post-processing value rewrite for `anyTypeOptions` keys
(src/bin/cmd.js:2537): `undefined` becomes `false`, the empty string becomes
`true`, every other value is kept. -/
def newVal (o : Option JSValue) : JSValue :=
  match o with
  | none => JSValue.bool false
  | some v => if v = JSValue.str "" then JSValue.bool true else v

/-- One assignment `result[key] = ...` of the post-processing loop. -/
def normStep (m : List (String × JSValue)) (k : String) : List (String × JSValue) :=
  setKeyA m k (newVal (lookupA m k))

/-- The post-processing loop `anyTypeOptions.forEach(...)` (src/bin/cmd.js:2537). -/
def normalizeAny (keys : List String) (m : List (String × JSValue)) :
    List (String × JSValue) :=
  keys.foldl normStep m

/-- The template-token regex match at src/bin/cmd.js:2584,
`/^(<(?=.+>)|\[(?=.+\]))([\w+-]+(\.\.\.)?)[>\]]$/g`, together with the derived
quantities of lines 2587-2589: returns `none` when the token does not match
(the code then throws "Invalid argument"), otherwise
`(isArray, isRequired, name?)` where `name?` is the first `[\w-]+` run of the
matched token (`none` makes the JS code fault on `null[0]`). -/
def matchTok (s : String) : Option (Bool × Bool × Option String) :=
  match s.data with
  | [] => none
  | c0 :: rest =>
    match rest.reverse with
    | [] => none
    | cend :: bodyRev =>
      let body := bodyRev.reverse
      if (c0 = '<' && cend = '>') || (c0 = '[' && cend = ']') then
        let core := (stripDots body).1
        let dots := (stripDots body).2
        if !core.isEmpty && core.all wordPM then
          some (dots, c0 = '<', firstRun s.data)
        else none
      else none

/-- Mirror a bound hyphenated positional name to its camelCase spelling
(src/bin/cmd.js:2608-2610); reading an unbound name yields `undefined`. -/
def mirror (st : MiniResult) (name : String) : MiniResult :=
  if hyphenKey name.data then
    { st with vals := setKeyA st.vals (String.mk (camelChars name.data)) ((lookupA st.vals name).getD JSValue.undef) }
  else st

/-- The `for` loop of `parseTemplates` (src/bin/cmd.js:2583-2612) over the
template token list, carrying the current index and the
`previousIsOptionalArg` flag. -/
def tmplRun (command : String) (preset : Nat) (total : Nat) :
    List String → Nat → Bool → MiniResult → Except PErr MiniResult
  | [], _, _, st => Except.ok st
  | tk :: rest, index, prevOpt, st =>
    match matchTok tk with
    | none => Except.error (PErr.thrown ("Invalid argument: " ++ tk))
    | some (_, _, none) => Except.error PErr.typeError
    | some (isArr, isReq, some name) =>
      if (isArr && !(index = total - 1 : Bool)) || (prevOpt && isReq) then
        Except.error (PErr.thrown ("Invalid argument template for " ++ command ++ " command"))
      else if isArr then
        if (st.pos.drop (index + preset)).length > 0 then
          let st1 := { st with vals := setKeyA st.vals name (JSValue.strList (st.pos.drop (index + preset))) }
          tmplRun command preset total rest (index + 1) (prevOpt || !isReq) (mirror st1 name)
        else if isReq then
          Except.error (PErr.thrown (name ++ " is required for " ++ command ++ " command"))
        else
          tmplRun command preset total rest (index + 1) (prevOpt || !isReq) (mirror st name)
      else
        if (index = total - 1 : Bool) && decide (((index : Int) + preset) < (st.pos.length : Int) - 1) then
          Except.error (PErr.thrown ("Too many arguments were given to " ++ command ++ " command"))
        else
          match st.pos[index + preset]? with
          | some v =>
            if v ≠ "" then
              let st1 := { st with vals := setKeyA st.vals name (JSValue.str v) }
              tmplRun command preset total rest (index + 1) (prevOpt || !isReq) (mirror st1 name)
            else if isReq then
              Except.error (PErr.thrown (name ++ " argument is required for " ++ command ++ " command"))
            else
              tmplRun command preset total rest (index + 1) (prevOpt || !isReq) (mirror st name)
          | none =>
            if isReq then
              Except.error (PErr.thrown (name ++ " argument is required for " ++ command ++ " command"))
            else
              tmplRun command preset total rest (index + 1) (prevOpt || !isReq) (mirror st name)

/-- `parseTemplates` (src/bin/cmd.js:2575-2616), including the faithful
rendering of line 2580, where the spaced-template branch reads
`commands[commands].template` - a lookup of the key `"[object Object]"` - so
that any selected template containing a space dereferences `undefined` and
faults with a `TypeError` unless the schema happens to declare a command
literally named `"[object Object]"`. -/
def parseTemplates (cmds : List (String × CmdSpec)) (result : MiniResult) :
    Except PErr MiniResult :=
  let isDefault : Bool :=
    match result.pos.head? with
    | none => true
    | some t => !((cmds.map Prod.fst).contains t)
  let command := if isDefault then "*" else result.pos.headD ""
  match lookupA cmds command with
  | none => Except.error PErr.typeError
  | some cspec =>
    if truthyOS cspec.template? then
      let templ := cspec.template?.getD ""
      match (if hasSub [' '] templ.data then
               match lookupA cmds "[object Object]" with
               | none => Except.error PErr.typeError
               | some c2 =>
                 match c2.template? with
                 | none => Except.error PErr.typeError
                 | some t2 => Except.ok (t2.splitOn " ")
             else Except.ok [templ]) with
      | Except.error e => Except.error e
      | Except.ok templList =>
        tmplRun command (if isDefault then 0 else 1) templList.length templList 0 false result
    else
      if (result.pos.length > 1 ∧ isDefault = false) ∨ (result.pos.length > 0 ∧ isDefault = true) then
        Except.error (PErr.thrown "Was not expecting arguments")
      else Except.ok result

/-- `minimistPrettyParse` (src/bin/cmd.js:2529-2618): build minimist options
from the schema when present, run the (spec-modelled) tokenizer, post-process
the `anyTypeOptions` keys, then match command templates when commands are
given. -/
def minimistPrettyParse (argv : List String) (options : Option (List (String × OptionSpec)))
    (commands : Option (List (String × CmdSpec))) : Except PErr MiniResult :=
  let built := match options with
    | some opts => buildOptions opts
    | none => (⟨[], [], [], []⟩, [])
  match tokenize built.1 ⟨built.1.defaults, []⟩ none argv with
  | Except.error e => Except.error e
  | Except.ok st =>
    let st2 : MiniResult := { st with vals := normalizeAny built.2 st.vals }
    match commands with
    | some cmds => parseTemplates cmds st2
    | none => Except.ok st2

/-- Observer: the value bound to `key` in a successful parse (`some none` when
the parse succeeded but left `key` unbound; `none` when the parse failed). -/
def parsedVal (argv : List String) (options : Option (List (String × OptionSpec)))
    (commands : Option (List (String × CmdSpec))) (key : String) : Option (Option JSValue) :=
  match minimistPrettyParse argv options commands with
  | Except.ok r => some (lookupA r.vals key)
  | Except.error _ => none

/-- The option schema of the tool, `Object.assign({}, options.streaming,
options.simple, options.advanced)` of src/bin/cmd.js:1694-1730 and 1763, in
object order; only the `alias`/`type`/`default` fields are kept. -/
def webtorrentOptions : List (String × OptionSpec) :=
  [("airplay", ⟨none, none, none⟩),
   ("chromecast", ⟨none, some "any", none⟩),
   ("dlna", ⟨none, none, none⟩),
   ("mplayer", ⟨none, none, none⟩),
   ("mpv", ⟨none, none, none⟩),
   ("omx", ⟨none, some "any", none⟩),
   ("vlc", ⟨none, none, none⟩),
   ("iina", ⟨none, none, none⟩),
   ("xbmc", ⟨none, none, none⟩),
   ("stdout", ⟨none, none, none⟩),
   ("help", ⟨some "h", none, none⟩),
   ("version", ⟨some "v", none, none⟩),
   ("out", ⟨some "o", some "string", none⟩),
   ("select", ⟨some "s", some "string", none⟩),
   ("subtitles", ⟨some "t", some "string", none⟩),
   ("port", ⟨some "p", none, some (JSValue.num 8000)⟩),
   ("blocklist", ⟨some "b", some "string", none⟩),
   ("announce", ⟨some "a", some "string", none⟩),
   ("quiet", ⟨some "q", none, none⟩),
   ("pip", ⟨none, none, none⟩),
   ("verbose", ⟨none, none, none⟩),
   ("player-args", ⟨none, some "string", none⟩),
   ("torrent-port", ⟨none, some "number", none⟩),
   ("dht-port", ⟨none, some "number", none⟩),
   ("not-on-top", ⟨none, none, none⟩),
   ("keep-seeding", ⟨none, none, none⟩),
   ("no-quit", ⟨none, none, none⟩),
   ("on-done", ⟨none, some "string", none⟩),
   ("on-exit", ⟨none, some "string", none⟩)]

/-- The command schema of the tool (src/bin/cmd.js:1746-1755); only the positional
templates are kept. -/
def webtorrentCommands : List (String × CmdSpec) :=
  [("*", ⟨some "[torrent-ids...]"⟩),
   ("download", ⟨some "<torrent-ids...>"⟩),
   ("downloadmeta", ⟨some "<torrent-ids...>"⟩),
   ("seed", ⟨some "<inputs...>"⟩),
   ("create", ⟨some "<input>"⟩),
   ("info", ⟨some "<torrent-id>"⟩),
   ("version", ⟨none⟩),
   ("help", ⟨none⟩)]

theorem lookupA_setKeyA_self {α : Type} (m : List (String × α)) (k : String) (v : α) :
    lookupA (setKeyA m k v) k = some v := by
  induction m with
  | nil => simp [setKeyA, lookupA]
  | cons e rest ih =>
    obtain ⟨k', v'⟩ := e
    by_cases h : k' = k
    · subst h
      simp [setKeyA, lookupA]
    · simp [setKeyA, lookupA, h, ih]

theorem lookupA_setKeyA_ne {α : Type} (m : List (String × α)) (k k' : String) (v : α)
    (h : k' ≠ k) : lookupA (setKeyA m k' v) k = lookupA m k := by
  induction m with
  | nil => simp [setKeyA, lookupA, h]
  | cons e rest ih =>
    obtain ⟨k'', v''⟩ := e
    by_cases h2 : k'' = k'
    · subst h2
      simp [setKeyA, lookupA, h]
    · simp [setKeyA, lookupA, h2, ih]

theorem setKeyA_of_lookupA {α : Type} (m : List (String × α)) (k : String) (v : α)
    (h : lookupA m k = some v) : setKeyA m k v = m := by
  induction m with
  | nil => simp [lookupA] at h
  | cons e rest ih =>
    obtain ⟨k', v'⟩ := e
    by_cases h2 : k' = k
    · subst h2
      simp [lookupA] at h
      simp [setKeyA, h]
    · simp [lookupA, h2] at h
      simp [setKeyA, h2, ih h]

theorem lookupA_setKeyA_same {α : Type} (m : List (String × α)) (k k' : String) (v : α)
    (h : lookupA m k = some v) : lookupA (setKeyA m k' v) k = some v := by
  by_cases h2 : k' = k
  · subst h2
    exact lookupA_setKeyA_self m k' v
  · rw [lookupA_setKeyA_ne m k k' v h2, h]

theorem lookupA_foldl_setKeyA {α : Type} (ns : List String) (m : List (String × α))
    (k : String) (v : α) (h : lookupA m k = some v) :
    lookupA (ns.foldl (fun m2 n => setKeyA m2 n v) m) k = some v := by
  induction ns generalizing m with
  | nil => simpa using h
  | cons n ns ih =>
    simp only [List.foldl_cons]
    exact ih (setKeyA m n v) (lookupA_setKeyA_same m k n v h)

theorem contains_of_lookupA {α : Type} (l : List (String × α)) (k : String) (v : α)
    (h : lookupA l k = some v) : (l.map Prod.fst).contains k = true := by
  induction l with
  | nil => simp [lookupA] at h
  | cons e rest ih =>
    obtain ⟨k', v'⟩ := e
    by_cases h2 : k' = k
    · subst h2
      simp [List.contains]
    · simp [lookupA, h2] at h
      simp [List.contains] at ih ⊢
      exact Or.inr (ih h)

theorem data_mk (l : List Char) : (String.mk l).data = l := rfl

theorem mk_data (s : String) : String.mk s.data = s := rfl

theorem data_append (s t : String) : (s ++ t).data = s.data ++ t.data := rfl

theorem data_eq_nil_iff (s : String) : s.data = [] ↔ s = "" := by
  constructor
  · intro h
    cases s with
    | mk d => cases h; rfl
  · intro h
    subst h
    rfl

theorem leadsWith_append_self (p r : List Char) : leadsWith p (p ++ r) = true := by
  induction p with
  | nil => simp [leadsWith]
  | cons c cs ih => simp [leadsWith, ih]

theorem hasSub_append_self (p r : List Char) : hasSub p (p ++ r) = true := by
  cases p with
  | nil =>
    cases r with
    | nil => simp [hasSub]
    | cons c cs => simp [hasSub, leadsWith]
  | cons c cs =>
    have h := leadsWith_append_self (c :: cs) r
    rw [List.cons_append] at h
    simp only [List.cons_append, hasSub, List.append_eq, h, Bool.true_or]

theorem replFirst_append_self (p r : List Char) (h : p ≠ []) : replFirst p (p ++ r) = r := by
  cases p with
  | nil => exact absurd rfl h
  | cons c cs =>
    have h2 := leadsWith_append_self (c :: cs) r
    rw [List.cons_append] at h2
    have h3 := List.drop_left (c :: cs) r
    rw [List.cons_append] at h3
    simp only [List.cons_append, replFirst, List.append_eq, h2, if_true, h3]

theorem replFirst_length_lt (p : List Char) (hp : p ≠ []) :
    ∀ l : List Char, hasSub p l = true → (replFirst p l).length < l.length := by
  intro l
  induction l with
  | nil =>
    intro h
    simp [hasSub, List.isEmpty_iff] at h
    exact absurd h hp
  | cons c cs ih =>
    intro h
    by_cases hl : leadsWith p (c :: cs) = true
    · simp only [replFirst, hl, if_true]
      rw [List.length_drop]
      have hp1 : 0 < p.length := List.length_pos.mpr hp
      exact Nat.sub_lt (by simp) hp1
    · simp only [hasSub, hl, Bool.false_or] at h
      simp only [replFirst, hl, if_false]
      simpa using Nat.succ_lt_succ (ih h)

theorem ne_of_data_length {s t : String} (h : s.data.length ≠ t.data.length) : s ≠ t := by
  intro he
  exact h (by rw [he])

theorem isFlagTok_ddash (k : String) : isFlagTok ("--" ++ k) = true := by
  have hd : ("--" ++ k).data = '-' :: '-' :: k.data := rfl
  simp only [isFlagTok, hd, leadsWith]
  simp [bne_iff_ne]
  intro h
  have := congrArg String.data h
  simp [hd] at this

theorem flagName_ddash (k : String) : flagName ("--" ++ k) = k := by
  have hd : ("--" ++ k).data = '-' :: '-' :: k.data := rfl
  simp [flagName, hd, leadsWith, mk_data]

theorem isFlagTok_dash (a : String) (h0 : a ≠ "") : isFlagTok ("-" ++ a) = true := by
  have hd : ("-" ++ a).data = '-' :: a.data := rfl
  simp only [isFlagTok, hd, leadsWith]
  simp [bne_iff_ne]
  intro h
  have := congrArg String.data h
  simp [hd] at this
  exact h0 ((data_eq_nil_iff a).mp this)

theorem flagName_dash (a : String) (had : leadsWith ['-'] a.data = false) :
    flagName ("-" ++ a) = a := by
  have hd : ("-" ++ a).data = '-' :: a.data := rfl
  have h2 : leadsWith ['-', '-'] ('-' :: a.data) = false := by
    simp [leadsWith, had]
  rw [flagName, hd, h2]
  simp [mk_data]

theorem camelChars_length (l : List Char) : (camelChars l).length ≤ l.length := by
  induction l using camelChars.induct
  case case1 => simp [camelChars]
  case case2 c => simp [camelChars]
  case case3 c d rest h ih =>
    simp [camelChars, h]
    omega
  case case4 c d rest h ih =>
    simp [camelChars, h] at ih ⊢
    omega

theorem mk_camel_ne_append_x (k : String) : String.mk (camelChars k.data) ≠ k ++ "x" := by
  intro h
  have hd := congrArg String.data h
  rw [data_mk, data_append] at hd
  have h2 := camelChars_length k.data
  rw [hd] at h2
  simp at h2

theorem append_x_ne (k : String) : (k ++ "x") ≠ k := by
  intro h
  have hd := congrArg String.data h
  rw [data_append] at hd
  have h2 := congrArg List.length hd
  simp at h2

theorem tokenize_pos_lead (opts : MinimistOpts) (l l₂ : List String) :
    ∀ st : MiniResult, (∀ t ∈ l, isFlagTok t = false) →
      tokenize opts st none (l ++ l₂) = tokenize opts ⟨st.vals, st.pos ++ l⟩ none l₂ := by
  induction l with
  | nil =>
    intro st _
    simp
  | cons t l ih =>
    intro st h
    have ht : isFlagTok t = false := h t (by simp)
    have hrest : ∀ u ∈ l, isFlagTok u = false := fun u hu => h u (by simp [hu])
    rw [List.cons_append]
    simp only [tokenize, tokAct, ht, Bool.false_eq_true, if_false]
    rw [ih (addPos st t) hrest]
    simp [addPos]

theorem tokenize_positionals (opts : MinimistOpts) (l : List String) (st : MiniResult)
    (h : ∀ t ∈ l, isFlagTok t = false) :
    tokenize opts st none l = Except.ok ⟨st.vals, st.pos ++ l⟩ := by
  rw [← List.append_nil l, tokenize_pos_lead opts l [] st h]
  simp [tokenize]

theorem newVal_ne_empty (o : Option JSValue) : newVal o ≠ JSValue.str "" := by
  cases o with
  | none => simp [newVal]
  | some v =>
    by_cases h : v = JSValue.str ""
    · simp [newVal, h]
    · simp [newVal, h]

theorem newVal_newVal (o : Option JSValue) : newVal (some (newVal o)) = newVal o := by
  have h := newVal_ne_empty o
  show (if newVal o = JSValue.str "" then JSValue.bool true else newVal o) = newVal o
  simp [h]

theorem lookupA_normalizeAny (ks : List String) (k : String) :
    ∀ m, lookupA (normalizeAny ks m) k =
      if ks.contains k then some (newVal (lookupA m k)) else lookupA m k := by
  induction ks with
  | nil =>
    intro m
    simp [normalizeAny, List.contains]
  | cons k' ks ih =>
    intro m
    simp only [normalizeAny, List.foldl_cons]
    rw [show ks.foldl normStep (normStep m k') = normalizeAny ks (normStep m k') from rfl, ih]
    by_cases hk : k' = k
    · subst hk
      have hself : lookupA (normStep m k') k' = some (newVal (lookupA m k')) := by
        simp [normStep, lookupA_setKeyA_self]
      cases hc : ks.contains k' <;>
        simp [hc, hself, newVal_newVal, List.contains_cons]
    · have hstep : lookupA (normStep m k') k = lookupA m k := by
        simp [normStep, lookupA_setKeyA_ne _ _ _ _ hk]
      have hbeq : (k == k') = false := by
        simp [Ne.symm hk]
      have hk2 : ¬k = k' := fun h2 => hk h2.symm
      simp [hstep, List.contains_cons, hbeq, hk2]

theorem normStep_of_good (m : List (String × JSValue)) (k : String) (v : JSValue)
    (h : lookupA m k = some v) (hne : v ≠ JSValue.str "") : normStep m k = m := by
  rw [normStep, h]
  have h2 : newVal (some v) = v := by simp [newVal, hne]
  rw [h2]
  exact setKeyA_of_lookupA m k v h

theorem normalizeAny_id_of_good (ks : List String) :
    ∀ m, (∀ k ∈ ks, ∃ v, lookupA m k = some v ∧ v ≠ JSValue.str "") →
      normalizeAny ks m = m := by
  induction ks with
  | nil =>
    intro m _
    rfl
  | cons k ks ih =>
    intro m h
    obtain ⟨v, hv, hne⟩ := h k (by simp)
    simp only [normalizeAny, List.foldl_cons]
    rw [show normStep m k = m from normStep_of_good m k v hv hne]
    exact ih m (fun k2 hk2 => h k2 (by simp [hk2]))

theorem tokenize_missing_tail (mo : MinimistOpts) (k : String)
    (hs : mo.strings.contains k = true) (hb : mo.booleans.contains k = false)
    (ha : lookupA mo.aliases k = none) :
    ∀ (l : List String) (st : MiniResult) (pending : Option String),
      ∃ msg, tokenize mo st pending (l ++ ["--" ++ k]) = Except.error (PErr.thrown msg) := by
  have hbm : k ∉ mo.booleans := by simpa using hb
  have hsm : k ∈ mo.strings := by simpa using hs
  have hact : ∀ st', tokAct mo st' ("--" ++ k) = (st', some k) := by
    intro st'
    simp [tokAct, isFlagTok_ddash, flagName_ddash, negCheck, resolveKey, ha, hbm, hsm]
  intro l
  induction l with
  | nil =>
    intro st pending
    refine ⟨"Missing value for flag " ++ k, ?_⟩
    cases pending with
    | none =>
      simp only [List.nil_append]
      simp [tokenize, hact]
    | some c =>
      simp only [List.nil_append]
      simp [tokenize, isFlagTok_ddash, hact]
  | cons t l ih =>
    intro st pending
    rw [List.cons_append]
    cases pending with
    | none =>
      obtain ⟨msg, hm⟩ := ih (tokAct mo st t).1 (tokAct mo st t).2
      exact ⟨msg, by simp only [tokenize]; exact hm⟩
    | some c =>
      by_cases hf : isFlagTok t
      · obtain ⟨msg, hm⟩ :=
          ih (tokAct mo (setFlagVals mo st c (JSValue.str "")) t).1
            (tokAct mo (setFlagVals mo st c (JSValue.str "")) t).2
        exact ⟨msg, by simp only [tokenize, hf, if_true]; exact hm⟩
      · obtain ⟨msg, hm⟩ := ih (setFlagVals mo st c (JSValue.str t)) none
        refine ⟨msg, ?_⟩
        simp only [tokenize, hf, Bool.false_eq_true, if_false]
        exact hm

theorem tokenize_swap (mo : MinimistOpts) (k a v : String) (post : List String)
    (hak : lookupA mo.aliases k = none) (haa : lookupA mo.aliases a = some k)
    (hnk : negCheck mo k = false) (hna : negCheck mo a = false)
    (ha0 : a ≠ "") (had : leadsWith ['-'] a.data = false) :
    ∀ (pre : List String) (st : MiniResult) (pending : Option String),
      tokenize mo st pending (pre ++ ("--" ++ k) :: v :: post)
        = tokenize mo st pending (pre ++ ("-" ++ a) :: v :: post) := by
  have hact : ∀ st', tokAct mo st' ("--" ++ k) = tokAct mo st' ("-" ++ a) := by
    intro st'
    simp only [tokAct, isFlagTok_ddash, isFlagTok_dash a ha0, if_true, flagName_ddash,
      flagName_dash a had, resolveKey, hak, haa]
    simp [hnk, hna]
  intro pre
  induction pre with
  | nil =>
    intro st pending
    cases pending with
    | none =>
      simp only [List.nil_append, tokenize, hact]
    | some c =>
      simp only [List.nil_append, tokenize, isFlagTok_ddash, isFlagTok_dash a ha0, if_true, hact]
  | cons t pre ih =>
    intro st pending
    cases pending with
    | none =>
      simp only [List.cons_append, tokenize]
      exact ih _ _
    | some c =>
      by_cases hf : isFlagTok t
      · simp only [List.cons_append, tokenize, hf, if_true]
        exact ih _ _
      · simp only [List.cons_append, tokenize, hf, Bool.false_eq_true, if_false]
        exact ih _ _

theorem lookupA_setFlagVals_self (opts : MinimistOpts) (st : MiniResult) (canon : String)
    (v : JSValue) : lookupA (setFlagVals opts st canon v).vals canon = some v := by
  simp only [setFlagVals]
  exact lookupA_foldl_setKeyA _ _ _ _ (lookupA_setKeyA_self _ _ _)

theorem lookupA_mirror_self (st : MiniResult) (name : String) (v : JSValue)
    (h : lookupA st.vals name = some v) :
    lookupA (mirror st name).vals name = some v := by
  rw [mirror]
  by_cases hh : hyphenKey name.data = true
  · simp only [hh, if_true, h, Option.getD_some]
    exact lookupA_setKeyA_same _ _ _ _ h
  · simp [hh, h]

theorem tmplRun_variadic (command : String) (preset : Nat) (n t : String) (st : MiniResult)
    (hm : matchTok t = some (true, false, some n))
    (hlen : st.pos.drop preset ≠ []) :
    ∃ r, tmplRun command preset 1 [t] 0 false st = Except.ok r ∧
      lookupA r.vals n = some (JSValue.strList (st.pos.drop preset)) := by
  have hpos : (st.pos.drop preset).length > 0 := List.length_pos.mpr hlen
  refine ⟨mirror { st with vals := setKeyA st.vals n (JSValue.strList (st.pos.drop (0 + preset))) } n, ?_, ?_⟩
  · simp only [tmplRun, hm]
    simp [Nat.zero_add, hpos, tmplRun]
    intro h
    exfalso
    rw [List.length_drop] at hpos
    omega
  · have h1 : lookupA (setKeyA st.vals n (JSValue.strList (st.pos.drop (0 + preset)))) n
        = some (JSValue.strList (st.pos.drop preset)) := by
      simpa using lookupA_setKeyA_self st.vals n (JSValue.strList (st.pos.drop (0 + preset)))
    exact lookupA_mirror_self _ n _ h1

theorem tmplRun_variadic_empty (command : String) (preset : Nat) (n t : String) (st : MiniResult)
    (hm : matchTok t = some (true, false, some n))
    (hlen : st.pos.drop preset = [])
    (hh : hyphenKey n.data = false) :
    tmplRun command preset 1 [t] 0 false st = Except.ok st := by
  simp only [tmplRun, hm]
  simp [Nat.zero_add, hlen, mirror, hh, tmplRun]

theorem parseTemplates_default_variadic (cmds : List (String × CmdSpec)) (st : MiniResult)
    (c : String) (ps : List String) (t n : String)
    (hpos : st.pos = c :: ps)
    (hnc : (cmds.map Prod.fst).contains c = false)
    (hstar : lookupA cmds "*" = some ⟨some t⟩)
    (hsp : hasSub [' '] t.data = false)
    (hm : matchTok t = some (true, false, some n)) :
    ∃ r, parseTemplates cmds st = Except.ok r ∧
      lookupA r.vals n = some (JSValue.strList (c :: ps)) := by
  have ht0 : t ≠ "" := by
    intro h
    rw [h] at hm
    simp [matchTok] at hm
  obtain ⟨r, hr, hl⟩ := tmplRun_variadic "*" 0 n t st hm (by simp [hpos])
  have hd : (!(cmds.map Prod.fst).contains c) = true := by rw [hnc]; rfl
  have htr : truthyOS (CmdSpec.template? ⟨some t⟩) = true := by simp [truthyOS, ht0]
  refine ⟨r, ?_, ?_⟩
  · simp only [parseTemplates, hpos, List.head?_cons, List.headD_cons, hd, if_true, hstar,
      htr, Option.getD_some, hsp, Bool.false_eq_true, if_false, List.length_cons,
      List.length_nil]
    exact hr
  · simpa [hpos] using hl

theorem parseTemplates_cmd_variadic (cmds : List (String × CmdSpec)) (st : MiniResult)
    (c : String) (ps : List String) (t n : String)
    (hpos : st.pos = c :: ps)
    (hc : lookupA cmds c = some ⟨some t⟩)
    (hsp : hasSub [' '] t.data = false)
    (hm : matchTok t = some (true, false, some n))
    (hne : ps ≠ []) :
    ∃ r, parseTemplates cmds st = Except.ok r ∧
      lookupA r.vals n = some (JSValue.strList ps) := by
  have ht0 : t ≠ "" := by
    intro h
    rw [h] at hm
    simp [matchTok] at hm
  have hcont : (cmds.map Prod.fst).contains c = true := contains_of_lookupA cmds c _ hc
  obtain ⟨r, hr, hl⟩ := tmplRun_variadic c 1 n t st hm (by simp [hpos, hne])
  have hd : (!(cmds.map Prod.fst).contains c) = false := by rw [hcont]; rfl
  have htr : truthyOS (CmdSpec.template? ⟨some t⟩) = true := by simp [truthyOS, ht0]
  refine ⟨r, ?_, ?_⟩
  · simp only [parseTemplates, hpos, List.head?_cons, List.headD_cons, hd, Bool.false_eq_true,
      if_false, hc, htr, if_true, Option.getD_some, hsp, List.length_cons, List.length_nil]
    exact hr
  · simpa [hpos] using hl

theorem parseTemplates_cmd_variadic_empty (cmds : List (String × CmdSpec)) (st : MiniResult)
    (c : String) (t n : String)
    (hpos : st.pos = [c])
    (hc : lookupA cmds c = some ⟨some t⟩)
    (hsp : hasSub [' '] t.data = false)
    (hm : matchTok t = some (true, false, some n))
    (hh : hyphenKey n.data = false) :
    parseTemplates cmds st = Except.ok st := by
  have ht0 : t ≠ "" := by
    intro h
    rw [h] at hm
    simp [matchTok] at hm
  have hcont : (cmds.map Prod.fst).contains c = true := contains_of_lookupA cmds c _ hc
  have hrun := tmplRun_variadic_empty c 1 n t st hm (by simp [hpos]) hh
  have hd : (!(cmds.map Prod.fst).contains c) = false := by rw [hcont]; rfl
  have htr : truthyOS (CmdSpec.template? ⟨some t⟩) = true := by simp [truthyOS, ht0]
  simp only [parseTemplates, hpos, List.head?_cons, List.headD_cons, hd, Bool.false_eq_true,
    if_false, hc, htr, if_true, Option.getD_some, hsp, List.length_cons, List.length_nil]
  exact hrun

theorem buildOptions_negpair (base : String) (f g : OptionSpec)
    (hf1 : truthyOS f.type? = false) (hf2 : truthyOJ f.default? = false)
    (hg1 : truthyOS g.type? = false) (hg2 : truthyOJ g.default? = false) :
    (buildOptions [(base, f), ("no-" ++ base, g)]).1.booleans = [base, "no-" ++ base] ∧
    (buildOptions [(base, f), ("no-" ++ base, g)]).2 = [] ∧
    lookupA (buildOptions [(base, f), ("no-" ++ base, g)]).1.defaults base
      = some (JSValue.bool true) := by
  have hsub2 : hasSub ['n', 'o', '-'] ("no-" ++ base).data = true := by
    rw [show ("no-" ++ base).data = ['n', 'o', '-'] ++ base.data from rfl]
    exact hasSub_append_self _ _
  have hrepl2 : String.mk (replFirst ['n', 'o', '-'] ("no-" ++ base).data) = base := by
    rw [show ("no-" ++ base).data = ['n', 'o', '-'] ++ base.data from rfl,
      replFirst_append_self _ _ (by simp), mk_data]
  refine ⟨?_, ?_, ?_⟩
  · simp [buildOptions, buildStep, hf1, hf2, hg1, hg2, apply_ite Prod.fst, apply_ite Prod.snd,
      apply_ite MinimistOpts.booleans, apply_ite MinimistOpts.defaults,
      apply_ite MinimistOpts.aliases, apply_ite MinimistOpts.strings]
  · simp [buildOptions, buildStep, hf1, hf2, hg1, hg2, apply_ite Prod.fst, apply_ite Prod.snd,
      apply_ite MinimistOpts.booleans, apply_ite MinimistOpts.defaults,
      apply_ite MinimistOpts.aliases, apply_ite MinimistOpts.strings]
  · simp only [buildOptions, List.foldl_cons, List.foldl_nil, buildStep, hf1, hf2, hg1, hg2,
      hsub2, hrepl2, Bool.false_eq_true, if_false, if_true, apply_ite Prod.fst,
      apply_ite MinimistOpts.defaults]
    simp [apply_ite MinimistOpts.defaults, apply_ite Prod.fst]
    exact lookupA_setKeyA_self _ _ _

theorem buildOptions_anyopt (k : String) (s : OptionSpec)
    (ht : s.type? = some "any") (hd : truthyOJ s.default? = false)
    (ha : truthyOS s.alias? = false) :
    (buildOptions [(k, s)]).1.strings = [k] ∧
    (buildOptions [(k, s)]).1.booleans = [] ∧
    (buildOptions [(k, s)]).2 = [k] ∧
    (buildOptions [(k, s)]).1.aliases
      = (if hyphenKey k.data then [(String.mk (camelChars k.data), k)] else []) ∧
    (buildOptions [(k, s)]).1.defaults
      = (if hasSub ['n', 'o', '-'] k.data
          then [(String.mk (replFirst ['n', 'o', '-'] k.data), JSValue.bool true)] else []) := by
  have hta : truthyOS (some "any") = true := rfl
  refine ⟨?_, ?_, ?_, ?_, ?_⟩ <;>
    simp [buildOptions, buildStep, ht, hta, hd, ha, setKeyA, apply_ite Prod.fst,
      apply_ite Prod.snd, apply_ite MinimistOpts.booleans, apply_ite MinimistOpts.defaults,
      apply_ite MinimistOpts.aliases, apply_ite MinimistOpts.strings]

/-- C1: for schemas satisfying the token-ordering invariant and argument lists
with no unknown flags, the claim says parse always terminates with a
ParseResult or a structured usage error and never raises an unstructured fault.
The code violates this: with the invariant-respecting schema
`{ *: { template: "<x> <y>" } }` (two required tokens, no variadic) and the
flag-free arguments `["a", "b"]`, line 2580 of src/bin/cmd.js evaluates
`commands[commands].template` - a lookup of the key `"[object Object]"` - and
faults with a `TypeError`, because any selected template containing a space
takes the typo branch. -/
theorem spacedTemplate_typeError :
    minimistPrettyParse ["a", "b"] none (some [("*", ⟨some "<x> <y>"⟩)])
      = Except.error PErr.typeError := rfl

/-- C2 (counterexample): the claim says a command whose template is the single
optional variadic token `[files...]`, parsed with no positionals, binds `files`
to the empty sequence. On the code, `parseTemplates` only assigns the variadic
name when the residual slice is nonempty (src/bin/cmd.js:2592-2597), so
parsing `cmd` succeeds but leaves `files` entirely unbound (`some none`),
not bound to the empty list. -/
theorem variadic_empty_unbound :
    parsedVal ["cmd"] none (some [("cmd", ⟨some "[files...]"⟩)]) "files" = some none ∧
    parsedVal ["cmd"] none (some [("cmd", ⟨some "[files...]"⟩)]) "files"
      ≠ some (some (JSValue.strList [])) := by
  constructor
  · rfl
  · decide

/-- C2 (amended): for every command declared (under any command list) with the
single optional variadic template token `[files...]`, parsing
`cmd a b c` binds `files` to the ordered sequence `[a, b, c]`, and parsing
`cmd` with no positionals succeeds with `files` left unbound (absent from the
result), rather than bound to the empty sequence. -/
theorem variadic_capture_amended (cmds : List (String × CmdSpec)) (c a b d : String)
    (hc : lookupA cmds c = some ⟨some "[files...]"⟩)
    (h1 : isFlagTok c = false) (h2 : isFlagTok a = false)
    (h3 : isFlagTok b = false) (h4 : isFlagTok d = false) :
    (∃ r, minimistPrettyParse [c, a, b, d] none (some cmds) = Except.ok r ∧
       lookupA r.vals "files" = some (JSValue.strList [a, b, d])) ∧
    (∃ r, minimistPrettyParse [c] none (some cmds) = Except.ok r ∧
       lookupA r.vals "files" = none) := by
  have hmt : matchTok "[files...]" = some (true, false, some "files") := by rfl
  have hsp : hasSub [' '] ("[files...]" : String).data = false := by rfl
  constructor
  · have htok : tokenize ⟨[], [], [], []⟩ ⟨[], []⟩ none [c, a, b, d]
        = Except.ok ⟨[], [c, a, b, d]⟩ := by
      have h5 := tokenize_positionals ⟨[], [], [], []⟩ [c, a, b, d] ⟨[], []⟩
        (by
          intro u hu
          simp at hu
          rcases hu with h | h | h | h <;> subst h <;> assumption)
      simpa using h5
    obtain ⟨r, hr, hl⟩ := parseTemplates_cmd_variadic cmds ⟨[], [c, a, b, d]⟩ c [a, b, d]
      "[files...]" "files" rfl hc hsp hmt (by simp)
    refine ⟨r, ?_, hl⟩
    simp only [minimistPrettyParse, htok, normalizeAny, List.foldl_nil]
    exact hr
  · have htok : tokenize ⟨[], [], [], []⟩ ⟨[], []⟩ none [c]
        = Except.ok ⟨[], [c]⟩ := by
      have h5 := tokenize_positionals ⟨[], [], [], []⟩ [c] ⟨[], []⟩
        (by
          intro u hu
          simp at hu
          subst hu
          exact h1)
      simpa using h5
    have hpt := parseTemplates_cmd_variadic_empty cmds ⟨[], [c]⟩ c "[files...]" "files" rfl hc
      hsp hmt (by rfl)
    refine ⟨⟨[], [c]⟩, ?_, rfl⟩
    simp only [minimistPrettyParse, htok, normalizeAny, List.foldl_nil]
    exact hpt

/-- Witness for C2 (amended) at the concrete schema `{cmd: "[files...]"}` and
arguments `cmd a b c` and `cmd`. -/
theorem variadic_capture_amended_witness :
    lookupA [("cmd", (⟨some "[files...]"⟩ : CmdSpec))] "cmd" = some ⟨some "[files...]"⟩ ∧
    isFlagTok "cmd" = false ∧ isFlagTok "a" = false ∧ isFlagTok "b" = false ∧
    isFlagTok "c" = false ∧
    ((∃ r, minimistPrettyParse ["cmd", "a", "b", "c"] none
          (some [("cmd", ⟨some "[files...]"⟩)]) = Except.ok r ∧
        lookupA r.vals "files" = some (JSValue.strList ["a", "b", "c"])) ∧
     (∃ r, minimistPrettyParse ["cmd"] none (some [("cmd", ⟨some "[files...]"⟩)])
          = Except.ok r ∧
        lookupA r.vals "files" = none)) :=
  ⟨rfl, rfl, rfl, rfl, rfl,
    variadic_capture_amended [("cmd", ⟨some "[files...]"⟩)] "cmd" "a" "b" "c"
      rfl rfl rfl rfl rfl⟩

/-- C3: the claim says a command with the two required non-variadic tokens
`<x> <y>` yields a "too many arguments" usage error on `cmd a b c` and a
missing-`y` usage error on `cmd a`. The code instead faults with a
`TypeError` on both inputs before any arity check runs: the template
`"<x> <y>"` contains a space, so line 2580 of src/bin/cmd.js dereferences
`commands[commands].template` (the `"[object Object]"` key), which is
`undefined`. -/
theorem twoRequired_arity_typeError :
    minimistPrettyParse ["cmd", "a", "b", "c"] none (some [("cmd", ⟨some "<x> <y>"⟩)])
      = Except.error PErr.typeError ∧
    minimistPrettyParse ["cmd", "a"] none (some [("cmd", ⟨some "<x> <y>"⟩)])
      = Except.error PErr.typeError := ⟨rfl, rfl⟩

/-- C4: for every option schema and canonical key `k` that buildOptions places
in the minimist `string` list (the handling of declared `string` and `either`
types, src/bin/cmd.js:2558-2567) and not in the `boolean` list, with no alias
entry shadowing `k`, parsing any argument list whose last element is the flag
token `--k` reports a structured usage error (the missing-value error of spec
section 4.1) rather than producing a ParseResult. -/
theorem stringFlag_missing_value (options : List (String × OptionSpec)) (k : String)
    (args : List String) (commands : Option (List (String × CmdSpec)))
    (hs : (buildOptions options).1.strings.contains k = true)
    (hb : (buildOptions options).1.booleans.contains k = false)
    (ha : lookupA (buildOptions options).1.aliases k = none) :
    ∃ msg, minimistPrettyParse (args ++ ["--" ++ k]) (some options) commands
      = Except.error (PErr.thrown msg) := by
  obtain ⟨msg, hm⟩ := tokenize_missing_tail (buildOptions options).1 k hs hb ha args
    ⟨(buildOptions options).1.defaults, []⟩ none
  refine ⟨msg, ?_⟩
  simp only [minimistPrettyParse, hm]

/-- Witness for C4 at the real `out` option (`--out` as the last token). -/
theorem stringFlag_missing_value_witness :
    (buildOptions [("out", (⟨some "o", some "string", none⟩ : OptionSpec))]).1.strings.contains
        "out" = true ∧
    (buildOptions [("out", (⟨some "o", some "string", none⟩ : OptionSpec))]).1.booleans.contains
        "out" = false ∧
    lookupA (buildOptions [("out", (⟨some "o", some "string", none⟩ : OptionSpec))]).1.aliases
        "out" = none ∧
    (∃ msg, minimistPrettyParse ([] ++ ["--" ++ "out"])
        (some [("out", ⟨some "o", some "string", none⟩)]) none
      = Except.error (PErr.thrown msg)) :=
  ⟨rfl, rfl, rfl,
    stringFlag_missing_value [("out", ⟨some "o", some "string", none⟩)] "out" [] none
      rfl rfl rfl⟩

/-- C5: for every schema declaring a plain boolean option `base` (no declared
type, no default) together with the negated boolean flag `no-base`, parsing an
argument list with no flags at all yields `base = true` (installed as a
default by the `no-` rule of buildOptions, src/bin/cmd.js:2551-2553), and
parsing the same list followed by `--no-base` yields `base = false` (the
negated form is the override, per spec section 4.1). -/
theorem negatedFlag_default (base : String) (f g : OptionSpec) (args : List String)
    (hf1 : truthyOS f.type? = false) (hf2 : truthyOJ f.default? = false)
    (hg1 : truthyOS g.type? = false) (hg2 : truthyOJ g.default? = false)
    (hargs : ∀ u ∈ args, isFlagTok u = false) :
    (∃ r, minimistPrettyParse args (some [(base, f), ("no-" ++ base, g)]) none = Except.ok r ∧
       lookupA r.vals base = some (JSValue.bool true)) ∧
    (∃ r, minimistPrettyParse (args ++ ["--no-" ++ base])
        (some [(base, f), ("no-" ++ base, g)]) none = Except.ok r ∧
       lookupA r.vals base = some (JSValue.bool false)) := by
  obtain ⟨hbool, hanyk, hdef⟩ := buildOptions_negpair base f g hf1 hf2 hg1 hg2
  set m := (buildOptions [(base, f), ("no-" ++ base, g)]).1 with hm
  constructor
  · refine ⟨⟨m.defaults, args⟩, ?_, hdef⟩
    have htok := tokenize_positionals m args ⟨m.defaults, []⟩ hargs
    simp only [minimistPrettyParse, ← hm, htok, hanyk, normalizeAny, List.foldl_nil,
      List.nil_append]
  · have heq : ("--no-" ++ base) = "--" ++ ("no-" ++ base) := by
      rcases base with ⟨l⟩
      rfl
    have hflag : isFlagTok ("--no-" ++ base) = true := by
      rw [heq]
      exact isFlagTok_ddash _
    have hname : flagName ("--no-" ++ base) = "no-" ++ base := by
      rw [heq]
      exact flagName_ddash _
    have hlead : leadsWith ['n', 'o', '-'] ("no-" ++ base).data = true := by
      rw [show ("no-" ++ base).data = ['n', 'o', '-'] ++ base.data from rfl]
      exact leadsWith_append_self _ _
    have hnegc : negCheck m ("no-" ++ base) = true := by
      rw [negCheck, hlead, hbool]
      simp [List.contains_cons]
    have hdrop : dropNo ("no-" ++ base) = base := by
      rw [dropNo, show ("no-" ++ base).data = ['n', 'o', '-'] ++ base.data from rfl]
      simp [mk_data]
    refine ⟨setFlagVals m ⟨m.defaults, args⟩ base (JSValue.bool false), ?_, ?_⟩
    · have htok : tokenize m ⟨m.defaults, []⟩ none (args ++ ["--no-" ++ base])
          = Except.ok (setFlagVals m ⟨m.defaults, args⟩ base (JSValue.bool false)) := by
        rw [tokenize_pos_lead m args ["--no-" ++ base] ⟨m.defaults, []⟩ hargs]
        simp only [tokenize, hflag, if_true, tokAct, hname, hnegc, hdrop, List.nil_append]
      simp only [minimistPrettyParse, ← hm, htok, hanyk, normalizeAny, List.foldl_nil]
    · exact lookupA_setFlagVals_self _ _ _ _

/-- Witness for C5 at the pair `quit` / `no-quit` mirroring the real schema. -/
theorem negatedFlag_default_witness :
    truthyOS (⟨none, none, none⟩ : OptionSpec).type? = false ∧
    truthyOJ (⟨none, none, none⟩ : OptionSpec).default? = false ∧
    (∀ u ∈ ([] : List String), isFlagTok u = false) ∧
    ((∃ r, minimistPrettyParse [] (some [("quit", ⟨none, none, none⟩),
          ("no-" ++ "quit", ⟨none, none, none⟩)]) none = Except.ok r ∧
        lookupA r.vals "quit" = some (JSValue.bool true)) ∧
     (∃ r, minimistPrettyParse ([] ++ ["--no-" ++ "quit"])
          (some [("quit", ⟨none, none, none⟩), ("no-" ++ "quit", ⟨none, none, none⟩)]) none
          = Except.ok r ∧
        lookupA r.vals "quit" = some (JSValue.bool false))) :=
  ⟨rfl, rfl, by simp,
    negatedFlag_default "quit" ⟨none, none, none⟩ ⟨none, none, none⟩ []
      rfl rfl rfl rfl (by simp)⟩

/-- C6: for every option `k` of declared type `either` (`type: "any"` in the
source), with no alias and no default, the parsed value is boolean `true` when
the flag appears with no value (the next token is itself a flag, so the raw
value is the empty string, coerced by the post-processing at
src/bin/cmd.js:2537), the retained string when it appears with an explicit
non-empty value, and boolean `false` when the flag is absent. -/
theorem eitherType_coercion (k v : String) (s : OptionSpec)
    (ht : s.type? = some "any") (hd : truthyOJ s.default? = false)
    (ha : truthyOS s.alias? = false)
    (hv1 : isFlagTok v = false) (hv2 : v ≠ "") :
    parsedVal ["--" ++ k, "--" ++ (k ++ "x")] (some [(k, s)]) none k
      = some (some (JSValue.bool true)) ∧
    parsedVal ["--" ++ k, v] (some [(k, s)]) none k = some (some (JSValue.str v)) ∧
    parsedVal [] (some [(k, s)]) none k = some (some (JSValue.bool false)) := by
  obtain ⟨hstr, hbool, hanyk, halias, hdefs⟩ := buildOptions_anyopt k s ht hd ha
  set m := (buildOptions [(k, s)]).1 with hm
  have hxk : (k ++ "x") ≠ k := append_x_ne k
  have hkx : k ≠ (k ++ "x") := Ne.symm hxk
  have hdefk : lookupA m.defaults k = none := by
    rw [hdefs]
    by_cases hh : hasSub ['n', 'o', '-'] k.data = true
    · have hne : String.mk (replFirst ['n', 'o', '-'] k.data) ≠ k := by
        intro heq
        have h2 := congrArg String.data heq
        rw [data_mk] at h2
        have hlt := replFirst_length_lt ['n', 'o', '-'] (by simp) k.data hh
        rw [h2] at hlt
        exact lt_irrefl _ hlt
      simp [hh, lookupA, hne]
    · simp [hh, lookupA]
  have hresk : resolveKey m k = k := by
    rw [resolveKey, halias]
    by_cases hh : hyphenKey k.data = true
    · by_cases hck : String.mk (camelChars k.data) = k
      · simp [hh, lookupA, hck]
      · simp [hh, lookupA, hck]
    · simp [hh, lookupA]
  have hresx : resolveKey m (k ++ "x") = (k ++ "x") := by
    rw [resolveKey, halias]
    by_cases hh : hyphenKey k.data = true
    · simp [hh, lookupA, mk_camel_ne_append_x k]
    · simp [hh, lookupA]
  have hnegk : negCheck m k = false := by
    rw [negCheck, hbool]
    simp [List.contains]
  have hnegx : negCheck m (k ++ "x") = false := by
    rw [negCheck, hbool]
    simp [List.contains]
  have hcontk : k ∈ m.strings := by
    rw [hstr]
    simp
  have hbk : k ∉ m.booleans := by
    rw [hbool]
    simp
  have hbx : (k ++ "x") ∉ m.booleans := by
    rw [hbool]
    simp
  have hcx : (k ++ "x") ∉ m.strings := by
    rw [hstr]
    simp [hxk]
  have halx : aliasNamesFor m.aliases (k ++ "x") = [] := by
    rw [halias]
    by_cases hh : hyphenKey k.data = true
    · simp [hh, aliasNamesFor, hkx]
    · simp [hh, aliasNamesFor]
  have hact1 : ∀ st, tokAct m st ("--" ++ k) = (st, some k) := by
    intro st
    simp [tokAct, isFlagTok_ddash, flagName_ddash, hnegk, hresk, hbk, hcontk]
  have hact2 : ∀ st, tokAct m st ("--" ++ (k ++ "x"))
      = (setFlagVals m st (k ++ "x") (JSValue.bool true), none) := by
    intro st
    simp [tokAct, isFlagTok_ddash, flagName_ddash, hnegx, hresx, hbx, hcx]
  refine ⟨?_, ?_, ?_⟩
  · have htoka : tokenize m ⟨m.defaults, []⟩ none ["--" ++ k, "--" ++ (k ++ "x")]
        = Except.ok (setFlagVals m (setFlagVals m ⟨m.defaults, []⟩ k (JSValue.str ""))
            (k ++ "x") (JSValue.bool true)) := by
      simp only [tokenize, hact1]
      simp only [tokenize, isFlagTok_ddash, if_true, hact2]
    have hlk : lookupA (setFlagVals m (setFlagVals m ⟨m.defaults, []⟩ k (JSValue.str ""))
        (k ++ "x") (JSValue.bool true)).vals k = some (JSValue.str "") := by
      simp only [setFlagVals, halx, List.foldl_nil]
      rw [lookupA_setKeyA_ne _ _ _ _ hxk]
      exact lookupA_foldl_setKeyA _ _ _ _ (lookupA_setKeyA_self _ _ _)
    simp only [parsedVal, minimistPrettyParse, ← hm, htoka, hanyk]
    rw [lookupA_normalizeAny]
    simp [hlk, newVal]
  · have htokb : tokenize m ⟨m.defaults, []⟩ none ["--" ++ k, v]
        = Except.ok (setFlagVals m ⟨m.defaults, []⟩ k (JSValue.str v)) := by
      simp only [tokenize, hact1]
      simp only [tokenize, hv1, Bool.false_eq_true, if_false]
    have hlk : lookupA (setFlagVals m ⟨m.defaults, []⟩ k (JSValue.str v)).vals k
        = some (JSValue.str v) := lookupA_setFlagVals_self _ _ _ _
    simp only [parsedVal, minimistPrettyParse, ← hm, htokb, hanyk]
    rw [lookupA_normalizeAny]
    simp [hlk, newVal, hv2]
  · have htokc : tokenize m ⟨m.defaults, []⟩ none [] = Except.ok ⟨m.defaults, []⟩ := rfl
    simp only [parsedVal, minimistPrettyParse, ← hm, htokc, hanyk]
    rw [lookupA_normalizeAny]
    simp [hdefk, newVal]

/-- Witness for C6 at the real `omx` option (type `any`), with value `local`. -/
theorem eitherType_coercion_witness :
    (⟨none, some "any", none⟩ : OptionSpec).type? = some "any" ∧
    truthyOJ (⟨none, some "any", none⟩ : OptionSpec).default? = false ∧
    truthyOS (⟨none, some "any", none⟩ : OptionSpec).alias? = false ∧
    isFlagTok "local" = false ∧ "local" ≠ "" ∧
    (parsedVal ["--" ++ "omx", "--" ++ ("omx" ++ "x")]
        (some [("omx", ⟨none, some "any", none⟩)]) none "omx"
        = some (some (JSValue.bool true)) ∧
     parsedVal ["--" ++ "omx", "local"] (some [("omx", ⟨none, some "any", none⟩)]) none "omx"
        = some (some (JSValue.str "local")) ∧
     parsedVal [] (some [("omx", ⟨none, some "any", none⟩)]) none "omx"
        = some (some (JSValue.bool false))) :=
  ⟨rfl, rfl, rfl, rfl, by decide,
    eitherType_coercion "omx" "local" ⟨none, some "any", none⟩ rfl rfl rfl rfl (by decide)⟩

/-- C7: for every option schema whose minimist alias table maps `a` to the
canonical key `k` (and does not remap `k` itself), with neither spelling a
declared negated boolean flag, parsing any argument list containing
`--k value` and parsing the same list with `-a value` in its place yield
identical results. -/
theorem alias_equivalence (options : List (String × OptionSpec)) (pre post : List String)
    (k a v : String) (commands : Option (List (String × CmdSpec)))
    (haa : lookupA (buildOptions options).1.aliases a = some k)
    (hak : lookupA (buildOptions options).1.aliases k = none)
    (hnk : negCheck (buildOptions options).1 k = false)
    (hna : negCheck (buildOptions options).1 a = false)
    (ha0 : a ≠ "") (had : leadsWith ['-'] a.data = false) :
    minimistPrettyParse (pre ++ ("--" ++ k) :: v :: post) (some options) commands
      = minimistPrettyParse (pre ++ ("-" ++ a) :: v :: post) (some options) commands := by
  have hsw := tokenize_swap (buildOptions options).1 k a v post hak haa hnk hna ha0 had pre
    ⟨(buildOptions options).1.defaults, []⟩ none
  simp only [minimistPrettyParse, hsw]

/-- Witness for C7 at the real `out` option with alias `o` and value `/tmp`. -/
theorem alias_equivalence_witness :
    lookupA (buildOptions [("out", (⟨some "o", some "string", none⟩ : OptionSpec))]).1.aliases
        "o" = some "out" ∧
    lookupA (buildOptions [("out", (⟨some "o", some "string", none⟩ : OptionSpec))]).1.aliases
        "out" = none ∧
    negCheck (buildOptions [("out", (⟨some "o", some "string", none⟩ : OptionSpec))]).1
        "out" = false ∧
    negCheck (buildOptions [("out", (⟨some "o", some "string", none⟩ : OptionSpec))]).1
        "o" = false ∧
    ("o" : String) ≠ "" ∧ leadsWith ['-'] ("o" : String).data = false ∧
    minimistPrettyParse ([] ++ ("--" ++ "out") :: "/tmp" :: [])
        (some [("out", ⟨some "o", some "string", none⟩)]) none
      = minimistPrettyParse ([] ++ ("-" ++ "o") :: "/tmp" :: [])
        (some [("out", ⟨some "o", some "string", none⟩)]) none :=
  ⟨rfl, rfl, rfl, rfl, by decide, rfl,
    alias_equivalence [("out", ⟨some "o", some "string", none⟩)] [] [] "out" "o" "/tmp" none
      rfl rfl rfl rfl (by decide) rfl⟩

/-- C8: the post-processing normalization of `anyTypeOptions` keys
(src/bin/cmd.js:2534-2537) is idempotent: running the rewrite loop a second
time over any key list and any option map changes nothing. -/
theorem normalizeAny_idempotent (keys : List String) (m : List (String × JSValue)) :
    normalizeAny keys (normalizeAny keys m) = normalizeAny keys m := by
  apply normalizeAny_id_of_good
  intro k hk
  rw [lookupA_normalizeAny]
  have hc : keys.contains k = true := by simpa using hk
  rw [if_pos hc]
  exact ⟨newVal (lookupA m k), rfl, newVal_ne_empty _⟩

/-- C9: when the first residual positional does not match any declared command
name, the default `*` command is resolved and the entire residual list -
including that first token - is bound to its template (here stated for a
single-token optional variadic default template, binding the token sequence
from offset 0); in particular, on the real schema, parsing
`mymagnet:... --out /tmp` binds `mymagnet:...` as the first (and only) entry
of the default command variadic `torrent-ids`, with `out` set to `/tmp`. -/
theorem defaultCommand_binds_first_token :
    (∀ (cmds : List (String × CmdSpec)) (st : MiniResult) (c : String) (ps : List String)
        (t n : String),
        st.pos = c :: ps →
        (cmds.map Prod.fst).contains c = false →
        lookupA cmds "*" = some ⟨some t⟩ →
        hasSub [' '] t.data = false →
        matchTok t = some (true, false, some n) →
        ∃ r, parseTemplates cmds st = Except.ok r ∧
          lookupA r.vals n = some (JSValue.strList (c :: ps))) ∧
    parsedVal ["mymagnet:...", "--out", "/tmp"] (some webtorrentOptions)
      (some webtorrentCommands) "torrent-ids"
      = some (some (JSValue.strList ["mymagnet:..."])) ∧
    parsedVal ["mymagnet:...", "--out", "/tmp"] (some webtorrentOptions)
      (some webtorrentCommands) "out" = some (some (JSValue.str "/tmp")) :=
  ⟨fun cmds st c ps t n h1 h2 h3 h4 h5 =>
      parseTemplates_default_variadic cmds st c ps t n h1 h2 h3 h4 h5, rfl, rfl⟩

/-- Witness for C9 (the quantified clause) at the real command schema with the
unmatched first token `m`. -/
theorem defaultCommand_binds_first_token_witness :
    (⟨[], ["m"]⟩ : MiniResult).pos = "m" :: [] ∧
    (webtorrentCommands.map Prod.fst).contains "m" = false ∧
    lookupA webtorrentCommands "*" = some ⟨some "[torrent-ids...]"⟩ ∧
    hasSub [' '] ("[torrent-ids...]" : String).data = false ∧
    matchTok "[torrent-ids...]" = some (true, false, some "torrent-ids") ∧
    (∃ r, parseTemplates webtorrentCommands ⟨[], ["m"]⟩ = Except.ok r ∧
      lookupA r.vals "torrent-ids" = some (JSValue.strList ("m" :: []))) :=
  ⟨rfl, rfl, rfl, rfl, rfl,
    defaultCommand_binds_first_token.1 webtorrentCommands ⟨[], ["m"]⟩ "m" []
      "[torrent-ids...]" "torrent-ids" rfl rfl rfl rfl rfl⟩

/-- C10: for every option key containing the substring `no-` anywhere (the
`optionKey.includes` test at src/bin/cmd.js:2551), buildOptions installs a
default of `true` for the key obtained by deleting the first occurrence of
`no-` - a key that is always distinct from the original, so a key with `no-`
in its middle silently installs a default for a differently named key. -/
theorem noDash_substring_default (pre : List (String × OptionSpec)) (k : String)
    (s : OptionSpec) (h : hasSub ['n', 'o', '-'] k.data = true) :
    lookupA ((buildOptions (pre ++ [(k, s)])).1.defaults)
      (String.mk (replFirst ['n', 'o', '-'] k.data)) = some (JSValue.bool true) ∧
    String.mk (replFirst ['n', 'o', '-'] k.data) ≠ k := by
  constructor
  · rw [buildOptions, List.foldl_append]
    simp only [List.foldl_cons, List.foldl_nil]
    generalize List.foldl buildStep (⟨[], [], [], []⟩, []) pre = acc
    obtain ⟨mo, anyK⟩ := acc
    simp [buildStep, h, apply_ite Prod.fst, apply_ite MinimistOpts.defaults,
      lookupA_setKeyA_self]
  · intro heq
    have h2 := congrArg String.data heq
    rw [data_mk] at h2
    have hlt := replFirst_length_lt ['n', 'o', '-'] (by simp) k.data h
    rw [h2] at hlt
    exact lt_irrefl _ hlt

/-- Witness for C10 at the key `piano-keys`, whose interior `no-` installs a
default for the differently named key `piakeys`. -/
theorem noDash_substring_default_witness :
    hasSub ['n', 'o', '-'] ("piano-keys" : String).data = true ∧
    (lookupA ((buildOptions ([] ++ [("piano-keys",
          (⟨none, none, none⟩ : OptionSpec))])).1.defaults)
        (String.mk (replFirst ['n', 'o', '-'] ("piano-keys" : String).data))
        = some (JSValue.bool true) ∧
      String.mk (replFirst ['n', 'o', '-'] ("piano-keys" : String).data) ≠ "piano-keys") :=
  ⟨rfl, noDash_substring_default [] "piano-keys" ⟨none, none, none⟩ rfl⟩

end WT
